import Mathlib

/-!
Shallow embedding of the B3 IR `Value` node
(src/modules/javafx.web/src/main/native/Source/JavaScriptCore/b3/B3Value.cpp)
and of the collaborator types it depends on (B3Type, B3Kind, B3Effects,
B3ValueKey, B3HeapRange, the payload-carrying Value subclasses, and the
basic-block container), sufficient to state and settle the claims about
the in-place replacement protocol, effect classification, canonicalization
keys, type inference, and identity-chain folding.

Fatal `RELEASE_ASSERT` paths and undefined accesses (out-of-range `child(i)`,
`as<T>()` on the wrong subclass) are modelled by `Option`: `none` means the
fatal/undefined path was taken.
-/

namespace B3

/-- Models B3::Type (named `Typ` because `Type` is a Lean keyword): the closed
value-type lattice Void, Int32, Int64, Float, Double, Tuple. -/
inductive Typ where
  | Void
  | Int32
  | Int64
  | Float
  | Double
  | Tuple
deriving DecidableEq, Repr

/-- Models B3::Opcode: exactly the opcodes enumerated by the (default-free)
switch in `Value::effects()` in B3Value.cpp. -/
inductive Opcode where
  | Nop
  | Identity
  | Opaque
  | Const32
  | Const64
  | ConstDouble
  | ConstFloat
  | BottomTuple
  | SlotBase
  | ArgumentReg
  | FramePointer
  | Add
  | Sub
  | Mul
  | Div
  | UDiv
  | Mod
  | UMod
  | Neg
  | BitAnd
  | BitOr
  | BitXor
  | Shl
  | SShr
  | ZShr
  | RotR
  | RotL
  | Clz
  | Abs
  | Ceil
  | Floor
  | Sqrt
  | BitwiseCast
  | SExt8
  | SExt16
  | SExt32
  | ZExt32
  | Trunc
  | IToD
  | IToF
  | FloatToDouble
  | DoubleToFloat
  | Equal
  | NotEqual
  | LessThan
  | GreaterThan
  | LessEqual
  | GreaterEqual
  | Above
  | Below
  | AboveEqual
  | BelowEqual
  | EqualOrUnordered
  | Select
  | Depend
  | Extract
  | Load8Z
  | Load8S
  | Load16Z
  | Load16S
  | Load
  | Store8
  | Store16
  | Store
  | AtomicWeakCAS
  | AtomicStrongCAS
  | AtomicXchgAdd
  | AtomicXchgAnd
  | AtomicXchgOr
  | AtomicXchgSub
  | AtomicXchgXor
  | AtomicXchg
  | WasmAddress
  | Fence
  | CCall
  | Patchpoint
  | CheckAdd
  | CheckSub
  | CheckMul
  | Check
  | WasmBoundsCheck
  | Upsilon
  | Set
  | Phi
  | Get
  | Jump
  | Branch
  | Switch
  | Return
  | Oops
  | EntrySwitch
deriving DecidableEq, Repr

/-- Models B3::Kind: an opcode together with the orthogonal flag bits; only
the `traps` bit is consulted by the code under verification. -/
structure Kind where
  opcode : Opcode
  traps : Bool
deriving DecidableEq, Repr

/-- Models the implicit C++ conversion `Kind(Opcode)`: all flag bits clear. -/
def Kind.ofOpcode (o : Opcode) : Kind := ⟨o, false⟩

/-- Models B3::HeapRange (B3HeapRange.h): a half-open range of abstract heap
addresses, `m_begin`/`m_end` as `lo`/`hi` (unsigned 32-bit in C++). -/
structure HeapRange where
  lo : Nat
  hi : Nat
deriving DecidableEq, Repr

/-- The default-constructed empty HeapRange(). -/
def HeapRange.empty : HeapRange := ⟨0, 0⟩

/-- Models HeapRange::top(): the whole 32-bit address space. -/
def HeapRange.top : HeapRange := ⟨0, 4294967295⟩

/-- Models HeapRange::operator| (union hull of the two ranges). -/
def HeapRange.union (a b : HeapRange) : HeapRange := ⟨min a.lo b.lo, max a.hi b.hi⟩

/-- Models HeapRange::operator bool (a range is nonempty iff begin differs
from end); MemoryValue::hasFence() tests its fence range this way. -/
def HeapRange.nonempty (r : HeapRange) : Bool := r.lo != r.hi

/-- Models B3::Effects (B3Effects.h is not in the repository sample; fields
follow the spec's §4.2 list: reads/writes ranges and the seven flags). -/
structure Effects where
  reads : HeapRange
  writes : HeapRange
  controlDependent : Bool
  exitsSideways : Bool
  terminal : Bool
  fence : Bool
  writesLocalState : Bool
  readsLocalState : Bool
  readsPinned : Bool
deriving DecidableEq, Repr

/-- The default-constructed `Effects`: empty ranges, all flags false. -/
def Effects.none : Effects :=
  ⟨HeapRange.empty, HeapRange.empty, false, false, false, false, false, false, false⟩

/-- Models Effects::forCheck() (Modelled from the spec: B3Effects.h is absent;
§4.2 says checked-arithmetic/check nodes may exit sideways, and §4.2's
cross-cutting trap rule pairs exiting sideways with reading all memory). -/
def Effects.forCheck : Effects :=
  { Effects.none with exitsSideways := true, reads := HeapRange.top }

/-- Models WasmBoundsCheckValue::Type (pinned-register bound vs explicit
maximum), consulted by `Value::effects()`. -/
inductive WasmBoundsType where
  | Pinned
  | Maximum
deriving DecidableEq, Repr

/-- Opcode-specific payload reached through `as<Subclass>()` in the C++ code:
each Value subclass that carries extra fields becomes one constructor. The
`none` constructor models a plain base `Value` with no extra payload.
Floating-point constants are carried as raw bit patterns. -/
inductive Payload where
  | none
  | const32 (value : Int)
  | const64 (value : Int)
  | constDouble (bits : Int)
  | constFloat (bits : Int)
  | memory (range fenceRange : HeapRange)
  | atomic (range fenceRange : HeapRange)
  | fenceRanges (read write : HeapRange)
  | cCallEffects (effects : Effects)
  | patchpointEffects (effects : Effects)
  | wasmBoundsCheck (boundsType : WasmBoundsType)
  | argumentReg (regIndex : Int)
  | slotBase (slotIndex : Int)
deriving DecidableEq, Repr

/-- Models B3::Value: `m_index`, `m_kind`, `m_type`, `m_origin`, `owner`
(the owning block, by id), the children, and the subclass payload. Children
are embedded structurally, so a node graph is represented by its unfolding;
node identity (C++ pointer identity) is modelled by `index`, which the arena
keeps unique. -/
inductive Value where
  | mk (index : Nat) (kind : Kind) (typ : Typ) (origin : Nat) (owner : Nat)
       (children : List Value) (payload : Payload)

/-- Projection for `m_index`. -/
def Value.index : Value → Nat
  | .mk i _ _ _ _ _ _ => i

/-- Projection for `m_kind`. -/
def Value.kind : Value → Kind
  | .mk _ k _ _ _ _ _ => k

/-- Projection for `m_type` (accessor `type()`). -/
def Value.typ : Value → Typ
  | .mk _ _ t _ _ _ _ => t

/-- Projection for `m_origin`. -/
def Value.origin : Value → Nat
  | .mk _ _ _ o _ _ _ => o

/-- Projection for the public `owner` field. -/
def Value.owner : Value → Nat
  | .mk _ _ _ _ w _ _ => w

/-- Projection for the children sequence. -/
def Value.children : Value → List Value
  | .mk _ _ _ _ _ cs _ => cs

/-- Projection for the subclass payload. -/
def Value.payload : Value → Payload
  | .mk _ _ _ _ _ _ p => p

/-- Models `opcode()` = `kind().opcode()`. -/
def Value.opcode (v : Value) : Opcode := v.kind.opcode

/-- Models `traps()` = `kind().traps()`. -/
def Value.traps (v : Value) : Bool := v.kind.traps

/-- Models `child(i)`; `none` models the out-of-range access the C++ asserts
against. -/
def Value.child (v : Value) (i : Nat) : Option Value := v.children[i]?

/-- Models `Value::replaceWith(Kind, Type, BasicBlock*)` (B3Value.cpp 131-141):
save `m_index`, destruct in place, reconstruct `Value(kind, type, m_origin)`
(no children, base payload), then restore the saved index and set `owner`.
Note the old `m_origin` is passed to the new constructor. -/
def Value.replaceWith (v : Value) (kind : Kind) (typ : Typ) (owner : Nat) : Value :=
  .mk v.index kind typ v.origin owner [] .none

/-- Models `Value::replaceWith(Kind, Type, BasicBlock*, Value*)` (B3Value.cpp
143-153), the overload that reconstructs with a single child. -/
def Value.replaceWith1 (v : Value) (kind : Kind) (typ : Typ) (owner : Nat) (child : Value) : Value :=
  .mk v.index kind typ v.origin owner [child] .none

/-- Models `Value::replaceWithNopIgnoringType()` (B3Value.cpp 92-95). -/
def Value.replaceWithNopIgnoringType (v : Value) : Value :=
  v.replaceWith (Kind.ofOpcode .Nop) .Void v.owner

/-- Models `Value::replaceWithNop()` (B3Value.cpp 86-90):
RELEASE_ASSERT(m_type == Void), then the type-ignoring nop replacement. -/
def Value.replaceWithNop (v : Value) : Option Value :=
  if v.typ = .Void then some v.replaceWithNopIgnoringType else none

/-- Models `Value::replaceWithIdentity(Value*)` (B3Value.cpp 66-79):
RELEASE_ASSERT(m_type == value->m_type); a Void node becomes a Nop, any other
node becomes `Identity` of its own type with the single child `value`. -/
def Value.replaceWithIdentity (v : Value) (value : Value) : Option Value :=
  if v.typ = value.typ then
    if v.typ = .Void then
      some v.replaceWithNopIgnoringType
    else
      some (v.replaceWith1 (Kind.ofOpcode .Identity) v.typ v.owner value)
  else
    Option.none

/-- Models `Value::replaceWithPhi()` (B3Value.cpp 97-105): a Void node is
routed through `replaceWithNop()`, otherwise the node becomes a `Phi` of its
own type. -/
def Value.replaceWithPhi (v : Value) : Option Value :=
  if v.typ = .Void then v.replaceWithNop
  else some (v.replaceWith (Kind.ofOpcode .Phi) v.typ v.owner)

/-- Models the basic-block container at the boundary `Value` needs (Modelled
from the spec: the BasicBlock class is not in the repository sample; §6 says
it owns an ordered sequence of nodes and the successor-edge list and exposes
`last()`, `setSuccessors()`, `clearSuccessors()`). Successors are recorded by
target block id. -/
structure BasicBlock where
  values : List Value
  successors : List Nat

/-- Models `BasicBlock::last()`. -/
def BasicBlock.last (b : BasicBlock) : Option Value := b.values.getLast?

/-- In-place mutation of the node with index `i` seen through the block's
list of (pointers to) its nodes. -/
def BasicBlock.replaceValue (b : BasicBlock) (i : Nat) (v : Value) : List Value :=
  b.values.map (fun w => if w.index = i then v else w)

/-- Models `Value::replaceWithJump(BasicBlock*, FrequentedBlock)` (B3Value.cpp
107-112): RELEASE_ASSERT(owner->last() == this) — pointer identity modelled
by index equality — then replace with a Void `Jump` and set the block's
successors to exactly the given target. -/
def Value.replaceWithJump (v : Value) (owner : BasicBlock) (target : Nat) :
    Option (Value × BasicBlock) :=
  if owner.last.map Value.index = some v.index then
    some (v.replaceWith (Kind.ofOpcode .Jump) .Void v.owner,
          ⟨owner.replaceValue v.index (v.replaceWith (Kind.ofOpcode .Jump) .Void v.owner),
           [target]⟩)
  else
    Option.none

/-- Models `Value::replaceWithOops(BasicBlock*)` (B3Value.cpp 114-119): same
last-node assertion, replace with a Void `Oops`, clear the successors. -/
def Value.replaceWithOops (v : Value) (owner : BasicBlock) :
    Option (Value × BasicBlock) :=
  if owner.last.map Value.index = some v.index then
    some (v.replaceWith (Kind.ofOpcode .Oops) .Void v.owner,
          ⟨owner.replaceValue v.index (v.replaceWith (Kind.ofOpcode .Oops) .Void v.owner),
           []⟩)
  else
    Option.none

/-- Models the opcode switch of `Value::effects()` (B3Value.cpp 526-677): a
default-free switch on the opcode filling an `Effects` record, consulting the
subclass payload for memory, atomic, fence, call, patchpoint and bounds-check
nodes. `none` models `as<Subclass>()` applied to a node that does not carry
that payload. -/
def Value.effectsSwitch (v : Value) : Option Effects :=
    match v.opcode with
    | .Nop | .Identity | .Opaque | .Const32 | .Const64 | .ConstDouble | .ConstFloat
    | .BottomTuple | .SlotBase | .ArgumentReg | .FramePointer
    | .Add | .Sub | .Mul | .Neg
    | .BitAnd | .BitOr | .BitXor | .Shl | .SShr | .ZShr | .RotR | .RotL
    | .Clz | .Abs | .Ceil | .Floor | .Sqrt
    | .BitwiseCast | .SExt8 | .SExt16 | .SExt32 | .ZExt32 | .Trunc
    | .IToD | .IToF | .FloatToDouble | .DoubleToFloat
    | .Equal | .NotEqual | .LessThan | .GreaterThan | .LessEqual | .GreaterEqual
    | .Above | .Below | .AboveEqual | .BelowEqual | .EqualOrUnordered
    | .Select | .Depend | .Extract =>
        some Effects.none
    | .Div | .UDiv | .Mod | .UMod =>
        some { Effects.none with controlDependent := true }
    | .Load8Z | .Load8S | .Load16Z | .Load16S | .Load =>
        match v.payload with
        | .memory range fenceRange =>
            let e := { Effects.none with reads := range, controlDependent := true }
            some (if fenceRange.nonempty then { e with writes := fenceRange, fence := true } else e)
        | _ => Option.none
    | .Store8 | .Store16 | .Store =>
        match v.payload with
        | .memory range fenceRange =>
            let e := { Effects.none with writes := range, controlDependent := true }
            some (if fenceRange.nonempty then { e with reads := fenceRange, fence := true } else e)
        | _ => Option.none
    | .AtomicWeakCAS | .AtomicStrongCAS | .AtomicXchgAdd | .AtomicXchgAnd
    | .AtomicXchgOr | .AtomicXchgSub | .AtomicXchgXor | .AtomicXchg =>
        match v.payload with
        | .atomic range fenceRange =>
            let e := { Effects.none with
                         reads := range.union fenceRange,
                         writes := range.union fenceRange,
                         controlDependent := true }
            some (if fenceRange.nonempty then { e with fence := true } else e)
        | _ => Option.none
    | .WasmAddress =>
        some { Effects.none with readsPinned := true }
    | .Fence =>
        match v.payload with
        | .fenceRanges read write =>
            some { Effects.none with reads := read, writes := write, fence := true }
        | _ => Option.none
    | .CCall =>
        match v.payload with
        | .cCallEffects e => some e
        | _ => Option.none
    | .Patchpoint =>
        match v.payload with
        | .patchpointEffects e => some e
        | _ => Option.none
    | .CheckAdd | .CheckSub | .CheckMul | .Check =>
        some Effects.forCheck
    | .WasmBoundsCheck =>
        match v.payload with
        | .wasmBoundsCheck boundsType =>
            let e := match boundsType with
                     | .Pinned => { Effects.none with readsPinned := true }
                     | .Maximum => Effects.none
            some { e with exitsSideways := true }
        | _ => Option.none
    | .Upsilon | .Set =>
        some { Effects.none with writesLocalState := true }
    | .Phi | .Get =>
        some { Effects.none with readsLocalState := true }
    | .Jump | .Branch | .Switch | .Return | .Oops | .EntrySwitch =>
        some { Effects.none with terminal := true }

/-- Models `Value::effects()` (B3Value.cpp 524-683): the opcode switch
followed by the cross-cutting `traps()` rule (lines 678-681) that forces
`exitsSideways` and widens `reads` to the entire address space. -/
def Value.effects (v : Value) : Option Effects :=
  v.effectsSwitch.map fun e =>
    if v.traps then { e with exitsSideways := true, reads := HeapRange.top } else e

/-- Models B3::ValueKey (B3ValueKey.h is not in the repository sample;
following the spec's §4.3: a value-type tuple of opcode/kind, type, and up to
three operand identities or literal bits, with a distinguished invalid key;
two keys are equal iff every component is equal — `DecidableEq` structural
equality). Operand identity is a child's arena index, which models the C++
key's stored child indices. -/
inductive ValueKey where
  | invalid
  | leaf (kind : Kind) (typ : Typ)
  | unary (kind : Kind) (typ : Typ) (a : Nat)
  | binary (kind : Kind) (typ : Typ) (a b : Nat)
  | ternary (kind : Kind) (typ : Typ) (a b c : Nat)
  | intConst (opcode : Opcode) (typ : Typ) (value : Int)
  | doubleConst (opcode : Opcode) (typ : Typ) (bits : Int)
  | floatConst (opcode : Opcode) (typ : Typ) (bits : Int)
deriving DecidableEq, Repr

/-- Models ValueKey::isValid(): only the default-constructed key is invalid. -/
def ValueKey.isValid : ValueKey → Bool
  | .invalid => false
  | _ => true

/-- Models `Value::key()` (B3Value.cpp 685-764): the arity-bucketed switch
building a canonical key, with the default case returning the invalid
`ValueKey()`. `none` models an out-of-range `child(i)` access or an `asInt32`
style accessor applied to a node without the matching constant payload. -/
def Value.key (v : Value) : Option ValueKey :=
  match v.opcode with
  | .FramePointer => some (.leaf v.kind v.typ)
  | .Identity | .Opaque | .Abs | .Ceil | .Floor | .Sqrt
  | .SExt8 | .SExt16 | .SExt32 | .ZExt32 | .Clz | .Trunc
  | .IToD | .IToF | .FloatToDouble | .DoubleToFloat
  | .Check | .BitwiseCast | .Neg | .Depend =>
      match v.children with
      | c0 :: _ => some (.unary v.kind v.typ c0.index)
      | [] => Option.none
  | .Add | .Sub | .Mul | .Div | .UDiv | .Mod | .UMod
  | .BitAnd | .BitOr | .BitXor | .Shl | .SShr | .ZShr | .RotR | .RotL
  | .Equal | .NotEqual | .LessThan | .GreaterThan
  | .Above | .Below | .AboveEqual | .BelowEqual | .EqualOrUnordered
  | .CheckAdd | .CheckSub | .CheckMul =>
      match v.children with
      | c0 :: c1 :: _ => some (.binary v.kind v.typ c0.index c1.index)
      | _ => Option.none
  | .Select =>
      match v.children with
      | c0 :: c1 :: c2 :: _ => some (.ternary v.kind v.typ c0.index c1.index c2.index)
      | _ => Option.none
  | .Const32 =>
      match v.payload with
      | .const32 value => some (.intConst .Const32 v.typ value)
      | _ => Option.none
  | .Const64 =>
      match v.payload with
      | .const64 value => some (.intConst .Const64 v.typ value)
      | _ => Option.none
  | .ConstDouble =>
      match v.payload with
      | .constDouble bits => some (.doubleConst .ConstDouble v.typ bits)
      | _ => Option.none
  | .ConstFloat =>
      match v.payload with
      | .constFloat bits => some (.floatConst .ConstFloat v.typ bits)
      | _ => Option.none
  | .BottomTuple => some (.leaf (Kind.ofOpcode .BottomTuple) v.typ)
  | .ArgumentReg =>
      match v.payload with
      | .argumentReg regIndex => some (.intConst .ArgumentReg v.typ regIndex)
      | _ => Option.none
  | .SlotBase =>
      match v.payload with
      | .slotBase slotIndex => some (.intConst .SlotBase v.typ slotIndex)
      | _ => Option.none
  | _ => some .invalid

/-- Models `pointerType()`: Int64 on the 64-bit targets this code ships on. -/
def pointerType : Typ := .Int64

/-- Models the static `Value::typeFor(Kind, Value*, Value*)` (B3Value.cpp
806-893). `none` models the `RELEASE_ASSERT_NOT_REACHED()` default case and a
null-child dereference; the `BitwiseCast` fallthrough for Void/Tuple (a
debug-only assert in C++) returns Void as the release build does. -/
def Value.typeFor (kind : Kind) (firstChild : Option Value) (secondChild : Option Value) :
    Option Typ :=
  match kind.opcode with
  | .Identity | .Opaque | .Add | .Sub | .Mul | .Div | .UDiv | .Mod | .UMod
  | .Neg | .BitAnd | .BitOr | .BitXor | .Shl | .SShr | .ZShr | .RotR | .RotL
  | .Clz | .Abs | .Ceil | .Floor | .Sqrt
  | .CheckAdd | .CheckSub | .CheckMul | .Depend =>
      firstChild.map Value.typ
  | .FramePointer => some pointerType
  | .SExt8 | .SExt16
  | .Equal | .NotEqual | .LessThan | .GreaterThan | .LessEqual | .GreaterEqual
  | .Above | .Below | .AboveEqual | .BelowEqual | .EqualOrUnordered =>
      some .Int32
  | .Trunc =>
      firstChild.map fun c => if c.typ = .Int64 then Typ.Int32 else Typ.Float
  | .SExt32 | .ZExt32 => some .Int64
  | .FloatToDouble | .IToD => some .Double
  | .DoubleToFloat | .IToF => some .Float
  | .BitwiseCast =>
      firstChild.map fun c =>
        match c.typ with
        | .Int64 => Typ.Double
        | .Double => Typ.Int64
        | .Int32 => Typ.Float
        | .Float => Typ.Int32
        | .Void => Typ.Void
        | .Tuple => Typ.Void
  | .Nop | .Jump | .Branch | .Return | .Oops | .EntrySwitch | .WasmBoundsCheck =>
      some .Void
  | .Select =>
      secondChild.map Value.typ
  | _ => Option.none

/-- Models `Value::foldIdentity()` (B3Value.cpp 766-772): walk the chain of
Identity nodes to the first non-Identity node. `none` models an Identity node
with no child (the C++ loop would read out of range there). -/
def Value.foldIdentity : Value → Option Value
  | .mk i k t o w cs p =>
      if k.opcode = .Identity then
        match cs with
        | c :: _ => c.foldIdentity
        | [] => Option.none
      else
        some (.mk i k t o w cs p)

/-- Instrumented variant of `foldIdentity` that also counts how many Identity
links the loop traverses. -/
def Value.foldIdentitySteps : Value → Option (Value × Nat)
  | .mk i k t o w cs p =>
      if k.opcode = .Identity then
        match cs with
        | c :: _ => (c.foldIdentitySteps).map fun r => (r.1, r.2 + 1)
        | [] => Option.none
      else
        some (.mk i k t o w cs p, 0)

/-- Helper for `performSubstitution`: rewrite each child that is an Identity
node to that child's folded target, reporting whether any child changed
(B3Value.cpp 777-782, the loop body). -/
def substituteChildren : List Value → Option (List Value × Bool)
  | [] => some ([], false)
  | c :: cs =>
      match substituteChildren cs with
      | some (cs', b) =>
          if c.opcode = .Identity then
            match c.foldIdentity with
            | some d => some (d :: cs', true)
            | Option.none => Option.none
          else
            some (c :: cs', b)
      | Option.none => Option.none

/-- Models `Value::performSubstitution()` (B3Value.cpp 774-784): rewrite the
node's children through `substituteChildren` and return the rewritten node
together with the changed flag. -/
def Value.performSubstitution : Value → Option (Value × Bool)
  | .mk i k t o w cs p =>
      (substituteChildren cs).map fun r => (Value.mk i k t o w r.1 p, r.2)

/-- The acyclic identity chains of the claim: `IdentityChain v n d` says `v`
reaches the non-Identity node `d` through exactly `n` Identity links, always
through the first child. -/
inductive IdentityChain : Value → Nat → Value → Prop where
  | done (v : Value) : v.opcode ≠ .Identity → IdentityChain v 0 v
  | step (v c d : Value) (n : Nat) :
      v.opcode = .Identity → v.children.head? = some c →
      IdentityChain c n d → IdentityChain v (n + 1) d

/-- The comparison opcodes that the `Value::key()` switch actually places in
the two-operand bucket (B3Value.cpp 728-736). -/
def comparisonKeyOpcodes : List Opcode :=
  [.Equal, .NotEqual, .LessThan, .GreaterThan,
   .Above, .Below, .AboveEqual, .BelowEqual, .EqualOrUnordered]

/-- All eleven comparison opcodes, as listed by the `Value::typeFor()` switch
(B3Value.cpp 841-851). -/
def comparisonOpcodes : List Opcode :=
  [.Equal, .NotEqual, .LessThan, .GreaterThan, .LessEqual, .GreaterEqual,
   .Above, .Below, .AboveEqual, .BelowEqual, .EqualOrUnordered]

/-- The opcodes `Value::typeFor()` sends to Void (B3Value.cpp 879-886). -/
def voidTypeOpcodes : List Opcode :=
  [.Nop, .Jump, .Branch, .Return, .Oops, .EntrySwitch, .WasmBoundsCheck]

/-- Sample constant node `b@1 = Const32(5)`, used by witness theorems. -/
def sampleX : Value := .mk 1 (Kind.ofOpcode .Const32) .Int32 0 0 [] (.const32 5)

/-- Sample constant node `b@2 = Const32(7)`. -/
def sampleY : Value := .mk 2 (Kind.ofOpcode .Const32) .Int32 0 0 [] (.const32 7)

/-- Sample node `b@3 = Add(b@1, b@2)` with a nonzero origin and owner. -/
def sampleAdd : Value := .mk 3 (Kind.ofOpcode .Add) .Int32 9 2 [sampleX, sampleY] .none

/-- Sample node `b@4 = LessEqual(b@1, b@2)`. -/
def sampleLessEqual : Value := .mk 4 (Kind.ofOpcode .LessEqual) .Int32 0 0 [sampleX, sampleY] .none

/-- Sample node `b@5 = Equal(b@1, b@2)`. -/
def sampleEqual : Value := .mk 5 (Kind.ofOpcode .Equal) .Int32 0 0 [sampleX, sampleY] .none

/-- A second `Equal(b@1, b@2)` node at a different index. -/
def sampleEqualTwin : Value := .mk 6 (Kind.ofOpcode .Equal) .Int32 0 0 [sampleX, sampleY] .none

/-- Sample fenced load `b@7 = Load(b@1)` with range [16,24) and fence range
[8,32). -/
def sampleLoad : Value :=
  .mk 7 (Kind.ofOpcode .Load) .Int32 0 0 [sampleX] (.memory ⟨16, 24⟩ ⟨8, 32⟩)

/-- Sample integer division `b@8 = Div(b@1, b@2)`. -/
def sampleDiv : Value := .mk 8 (Kind.ofOpcode .Div) .Int32 0 0 [sampleX, sampleY] .none

/-- Sample terminator `b@9 = Return(b@1)`, owned by block 2. -/
def sampleReturn : Value := .mk 9 (Kind.ofOpcode .Return) .Void 0 2 [sampleX] .none

/-- Sample trapping division: kind `Div` with the traps flag set. -/
def sampleTrappingDiv : Value := .mk 14 ⟨.Div, true⟩ .Int32 0 0 [sampleX, sampleY] .none

/-- Sample `b@11 = WasmAddress(b@1)`. -/
def sampleWasmAddress : Value := .mk 11 (Kind.ofOpcode .WasmAddress) .Int64 0 0 [sampleX] .none

/-- Sample identity node `b@12 = Identity(b@1)`. -/
def sampleIdentityB : Value := .mk 12 (Kind.ofOpcode .Identity) .Int32 0 0 [sampleX] .none

/-- Sample identity chain head `b@13 = Identity(b@12)`. -/
def sampleIdentityA : Value := .mk 13 (Kind.ofOpcode .Identity) .Int32 0 0 [sampleIdentityB] .none

/-- Sample node `b@15 = Add(b@13, b@2)` whose first child is an Identity. -/
def sampleAddOfIdentity : Value :=
  .mk 15 (Kind.ofOpcode .Add) .Int32 0 0 [sampleIdentityA, sampleY] .none

/-- Sample block whose node list ends at `sampleReturn` and which currently
has two successors. -/
def sampleBlock : BasicBlock := ⟨[sampleAdd, sampleReturn], [7, 8]⟩

/-- A successful `foldIdentity` never returns an Identity node: the loop only
stops on a non-Identity opcode. -/
theorem foldIdentity_not_identity :
    ∀ (v d : Value), v.foldIdentity = some d → d.opcode ≠ .Identity
  | .mk i k t o w [] p, d, h => by
      simp only [Value.foldIdentity] at h
      by_cases hk : k.opcode = .Identity
      · rw [if_pos hk] at h
        exact Option.noConfusion h
      · rw [if_neg hk] at h
        cases h
        exact hk
  | .mk i k t o w (c :: cs) p, d, h => by
      simp only [Value.foldIdentity] at h
      by_cases hk : k.opcode = .Identity
      · rw [if_pos hk] at h
        exact foldIdentity_not_identity c d h
      · rw [if_neg hk] at h
        cases h
        exact hk

/-- Characterization of `substituteChildren`: the changed flag is set iff some
child was an Identity node, no rewritten child is an Identity node, and each
position either carries the folded target of its old Identity child or the
unchanged old child. -/
theorem substituteChildren_spec :
    ∀ (cs cs' : List Value) (b : Bool), substituteChildren cs = some (cs', b) →
      (b = true ↔ ∃ c ∈ cs, c.opcode = .Identity) ∧
      (∀ c ∈ cs', c.opcode ≠ .Identity) ∧
      cs'.length = cs.length ∧
      (∀ (i : Nat) (c : Value), cs[i]? = some c →
        (c.opcode = .Identity → cs'[i]? = c.foldIdentity) ∧
        (c.opcode ≠ .Identity → cs'[i]? = some c)) := by
  intro cs
  induction cs with
  | nil =>
      intro cs' b h
      simp only [substituteChildren] at h
      cases h
      refine ⟨by simp, by simp, rfl, ?_⟩
      intro i c hc
      simp at hc
  | cons c cs ih =>
      intro cs' b h
      simp only [substituteChildren] at h
      split at h
      next cs₀ b₀ hrec =>
        obtain ⟨hb, hall, hlen, hidx⟩ := ih cs₀ b₀ hrec
        by_cases hc : c.opcode = .Identity
        · rw [if_pos hc] at h
          split at h
          next dfold hf =>
            cases h
            refine ⟨?_, ?_, by simp [hlen], ?_⟩
            · constructor
              · intro _
                exact ⟨c, List.mem_cons_self c cs, hc⟩
              · intro _
                rfl
            · intro x hx
              rcases List.mem_cons.mp hx with rfl | hx'
              · exact foldIdentity_not_identity c x hf
              · exact hall x hx'
            · intro i x hix
              cases i with
              | zero =>
                  simp only [List.getElem?_cons_zero, Option.some.injEq] at hix
                  subst hix
                  exact ⟨fun _ => by simp [hf], fun hxc => absurd hc hxc⟩
              | succ j =>
                  simp only [List.getElem?_cons_succ] at hix ⊢
                  exact hidx j x hix
          next hf => exact Option.noConfusion h
        · rw [if_neg hc] at h
          cases h
          refine ⟨?_, ?_, by simp [hlen], ?_⟩
          · constructor
            · intro hb₀
              obtain ⟨x, hx, hxid⟩ := hb.mp hb₀
              exact ⟨x, List.mem_cons_of_mem c hx, hxid⟩
            · intro hex
              obtain ⟨x, hx, hxid⟩ := hex
              rcases List.mem_cons.mp hx with rfl | hx'
              · exact absurd hxid hc
              · exact hb.mpr ⟨x, hx', hxid⟩
          · intro x hx
            rcases List.mem_cons.mp hx with rfl | hx'
            · exact hc
            · exact hall x hx'
          · intro i x hix
            cases i with
            | zero =>
                simp only [List.getElem?_cons_zero, Option.some.injEq] at hix
                subst hix
                exact ⟨fun hxc => absurd hxc hc, fun _ => by simp⟩
            | succ j =>
                simp only [List.getElem?_cons_succ] at hix ⊢
                exact hidx j x hix
      next hrec => exact Option.noConfusion h

/-- C1: Identity stability — for every node and every in-place replacement
operation (`replaceWith` in both arities, `replaceWithIdentity`,
`replaceWithNop`, `replaceWithPhi`, `replaceWithJump`, `replaceWithOops`),
the node's index after the call equals its index before the call, and the
reconstructed node observes the new opcode, type, and children. -/
theorem C1_identity_stability :
    (∀ (v : Value) (k : Kind) (t : Typ) (o : Nat),
        (v.replaceWith k t o).index = v.index ∧
        (v.replaceWith k t o).kind = k ∧
        (v.replaceWith k t o).typ = t ∧
        (v.replaceWith k t o).children = []) ∧
    (∀ (v : Value) (k : Kind) (t : Typ) (o : Nat) (c : Value),
        (v.replaceWith1 k t o c).index = v.index ∧
        (v.replaceWith1 k t o c).kind = k ∧
        (v.replaceWith1 k t o c).typ = t ∧
        (v.replaceWith1 k t o c).children = [c]) ∧
    (∀ (v target v' : Value), v.replaceWithIdentity target = some v' →
        v'.index = v.index) ∧
    (∀ (v v' : Value), v.replaceWithNop = some v' → v'.index = v.index) ∧
    (∀ (v v' : Value), v.replaceWithPhi = some v' → v'.index = v.index) ∧
    (∀ (v : Value) (b : BasicBlock) (target : Nat) (v' : Value) (b' : BasicBlock),
        v.replaceWithJump b target = some (v', b') → v'.index = v.index) ∧
    (∀ (v : Value) (b : BasicBlock) (v' : Value) (b' : BasicBlock),
        v.replaceWithOops b = some (v', b') → v'.index = v.index) := by
  refine ⟨?_, ?_, ?_, ?_, ?_, ?_, ?_⟩
  · intro v k t o
    exact ⟨rfl, rfl, rfl, rfl⟩
  · intro v k t o c
    exact ⟨rfl, rfl, rfl, rfl⟩
  · intro v target v' h
    unfold Value.replaceWithIdentity at h
    split at h
    · split at h
      · cases h; rfl
      · cases h; rfl
    · exact Option.noConfusion h
  · intro v v' h
    unfold Value.replaceWithNop at h
    split at h
    · cases h; rfl
    · exact Option.noConfusion h
  · intro v v' h
    unfold Value.replaceWithPhi Value.replaceWithNop at h
    split at h
    · cases h; rfl
    · cases h; rfl
  · intro v b target v' b' h
    unfold Value.replaceWithJump at h
    split at h
    · cases h; rfl
    · exact Option.noConfusion h
  · intro v b v' b' h
    unfold Value.replaceWithOops at h
    split at h
    · cases h; rfl
    · exact Option.noConfusion h

/-- Witness for C1: the sample `Add` node turned into an `Identity` keeps its
index. -/
theorem C1_identity_stability_witness :
    sampleAdd.replaceWithIdentity sampleX =
      some (Value.mk 3 (Kind.ofOpcode .Identity) .Int32 9 2 [sampleX] .none) ∧
    (Value.mk 3 (Kind.ofOpcode .Identity) .Int32 9 2 [sampleX] .none).index =
      sampleAdd.index :=
  ⟨rfl,
   C1_identity_stability.2.2.1 sampleAdd sampleX
     (Value.mk 3 (Kind.ofOpcode .Identity) .Int32 9 2 [sampleX] .none) rfl⟩

/-- C2: `replaceWithIdentity(target)` hits the fatal assertion exactly when
the target's type differs from the node's; under the precondition, a Void
node becomes a Void `Nop`, and any other node becomes an `Identity` node of
its own type whose single child is the target, with index and owner (and the
old origin) preserved. -/
theorem C2_replaceWithIdentity_contract :
    ∀ (v target : Value),
      (v.typ ≠ target.typ → v.replaceWithIdentity target = Option.none) ∧
      (v.typ = target.typ → v.typ = .Void →
        v.replaceWithIdentity target =
          some (Value.mk v.index (Kind.ofOpcode .Nop) .Void v.origin v.owner [] .none)) ∧
      (v.typ = target.typ → v.typ ≠ .Void →
        v.replaceWithIdentity target =
          some (Value.mk v.index (Kind.ofOpcode .Identity) v.typ v.origin v.owner
                  [target] .none)) := by
  intro v target
  refine ⟨?_, ?_, ?_⟩
  · intro hne
    unfold Value.replaceWithIdentity
    rw [if_neg hne]
  · intro heq hvoid
    unfold Value.replaceWithIdentity
    rw [if_pos heq, if_pos hvoid]
    rfl
  · intro heq hvoid
    unfold Value.replaceWithIdentity
    rw [if_pos heq, if_neg hvoid]
    rfl

/-- Witness for C2: the sample non-Void `Add` node with a type-matching
target becomes an `Identity` over that target. -/
theorem C2_replaceWithIdentity_contract_witness :
    sampleAdd.typ = sampleX.typ ∧ sampleAdd.typ ≠ Typ.Void ∧
    sampleAdd.replaceWithIdentity sampleX =
      some (Value.mk sampleAdd.index (Kind.ofOpcode .Identity) sampleAdd.typ
              sampleAdd.origin sampleAdd.owner [sampleX] .none) :=
  ⟨rfl, by decide,
   (C2_replaceWithIdentity_contract sampleAdd sampleX).2.2 rfl (by decide)⟩

/-- C3: Effects classification examples — for a non-trapping node, an `Add`
has every effect field false/empty; an integer `Div` has only
`controlDependent`; a fenced `Load` reads its declared range, writes its
fence range, and has `fence` and `controlDependent` set; a `Return` has only
`terminal`. -/
theorem C3_effects_classification :
    ∀ v : Value, v.traps = false →
      (v.opcode = .Add → v.effects = some Effects.none) ∧
      ((v.typ = .Int32 ∨ v.typ = .Int64) → v.opcode = .Div →
        v.effects = some { Effects.none with controlDependent := true }) ∧
      (∀ range fenceRange : HeapRange, v.opcode = .Load →
        v.payload = .memory range fenceRange → fenceRange.nonempty = true →
        v.effects =
          some ⟨range, fenceRange, true, false, false, true, false, false, false⟩) ∧
      (v.opcode = .Return → v.effects = some { Effects.none with terminal := true }) := by
  intro v ht
  obtain ⟨i, k, t, o, w, cs, p⟩ := v
  obtain ⟨kop, ktr⟩ := k
  simp only [Value.traps, Value.kind] at ht
  subst ht
  refine ⟨?_, ?_, ?_, ?_⟩
  · intro hop
    obtain rfl : kop = .Add := hop
    rfl
  · intro _ hop
    obtain rfl : kop = .Div := hop
    rfl
  · intro range fenceRange hop hp hf
    obtain rfl : kop = .Load := hop
    simp only [Value.payload] at hp
    subst hp
    simp only [Value.effects, Value.effectsSwitch, Value.opcode, Value.kind,
      Value.payload, Value.traps, hf, if_true, Option.map_some', if_false,
      Bool.false_eq_true, Effects.none]
  · intro hop
    obtain rfl : kop = .Return := hop
    rfl

/-- Witness for C3: the sample fenced load's computed effects. -/
theorem C3_effects_classification_witness :
    sampleLoad.traps = false ∧ sampleLoad.opcode = Opcode.Load ∧
    sampleLoad.payload = Payload.memory ⟨16, 24⟩ ⟨8, 32⟩ ∧
    HeapRange.nonempty ⟨8, 32⟩ = true ∧
    sampleLoad.effects =
      some ⟨⟨16, 24⟩, ⟨8, 32⟩, true, false, false, true, false, false, false⟩ :=
  ⟨rfl, rfl, rfl, by decide,
   (C3_effects_classification sampleLoad rfl).2.2.1 ⟨16, 24⟩ ⟨8, 32⟩ rfl rfl (by decide)⟩

/-- C7: the cross-cutting trap rule — whatever the opcode, a node whose kind
has the traps flag yields effects with `exitsSideways` and `reads` widened to
the whole address space. -/
theorem C7_traps_rule :
    ∀ (v : Value) (e : Effects), v.traps = true → v.effects = some e →
      e.exitsSideways = true ∧ e.reads = HeapRange.top := by
  intro v e ht he
  unfold Value.effects at he
  rw [Option.map_eq_some'] at he
  obtain ⟨a, ha, hae⟩ := he
  rw [ht] at hae
  simp only [if_true] at hae
  subst hae
  exact ⟨rfl, rfl⟩

/-- Witness for C7: a trapping Div reads the whole address space and exits
sideways. -/
theorem C7_traps_rule_witness :
    sampleTrappingDiv.traps = true ∧
    sampleTrappingDiv.effects =
      some ⟨HeapRange.top, HeapRange.empty, true, true, false, false, false, false, false⟩ ∧
    (true : Bool) = true ∧ HeapRange.top = HeapRange.top :=
  ⟨rfl, rfl,
   C7_traps_rule sampleTrappingDiv
     ⟨HeapRange.top, HeapRange.empty, true, true, false, false, false, false, false⟩
     rfl rfl⟩

/-- C10: a non-trapping `WasmAddress` node has `readsPinned` set and every
other effect field at its default. -/
theorem C10_wasmAddress_effects :
    ∀ v : Value, v.opcode = .WasmAddress → v.traps = false →
      v.effects = some { Effects.none with readsPinned := true } := by
  intro v hop ht
  obtain ⟨i, k, t, o, w, cs, p⟩ := v
  obtain ⟨kop, ktr⟩ := k
  simp only [Value.traps, Value.kind] at ht
  subst ht
  obtain rfl : kop = .WasmAddress := hop
  rfl

/-- Witness for C10: the sample `WasmAddress` node. -/
theorem C10_wasmAddress_effects_witness :
    sampleWasmAddress.opcode = Opcode.WasmAddress ∧ sampleWasmAddress.traps = false ∧
    sampleWasmAddress.effects = some { Effects.none with readsPinned := true } :=
  ⟨rfl, rfl, C10_wasmAddress_effects sampleWasmAddress rfl rfl⟩

/-- C4 counterexample: the claim fails for `LessEqual` — the `Value::key()`
switch does not list `LessEqual` (or `GreaterEqual`) in the two-operand
bucket, so a `LessEqual` node with two children gets the invalid key, not a
valid two-operand key. -/
theorem C4_counterexample_lessEqual :
    sampleLessEqual.opcode = Opcode.LessEqual ∧
    sampleLessEqual.children = [sampleX, sampleY] ∧
    sampleLessEqual.key = some ValueKey.invalid ∧
    Option.map ValueKey.isValid sampleLessEqual.key = some false :=
  ⟨rfl, rfl, rfl, rfl⟩

/-- C4 (amended): for the nine comparison opcodes actually listed by the
`key()` switch (Equal, NotEqual, LessThan, GreaterThan, Above, Below,
AboveEqual, BelowEqual, EqualOrUnordered), `key()` returns a valid
two-operand key built from the node's kind, type, child(0) and child(1), and
any two such nodes with identical opcode, type, and children are key-equal;
`LessEqual` and `GreaterEqual` instead yield the invalid key. -/
theorem C4_comparison_key_bucketing :
    (∀ (v c0 c1 : Value), v.opcode ∈ comparisonKeyOpcodes → v.children = [c0, c1] →
        v.key = some (ValueKey.binary v.kind v.typ c0.index c1.index) ∧
        Option.map ValueKey.isValid v.key = some true) ∧
    (∀ (v w c0 c1 d0 d1 : Value), v.opcode ∈ comparisonKeyOpcodes →
        v.children = [c0, c1] → w.children = [d0, d1] →
        v.kind = w.kind → v.typ = w.typ →
        c0.index = d0.index → c1.index = d1.index →
        v.key = w.key) ∧
    (∀ v : Value, v.opcode = .LessEqual ∨ v.opcode = .GreaterEqual →
        v.key = some ValueKey.invalid) := by
  have key_eq : ∀ (v c0 c1 : Value), v.opcode ∈ comparisonKeyOpcodes →
      v.children = [c0, c1] →
      v.key = some (ValueKey.binary v.kind v.typ c0.index c1.index) := by
    intro v c0 c1 hmem hcs
    obtain ⟨i, k, t, o, w, cs, p⟩ := v
    obtain ⟨kop, ktr⟩ := k
    simp only [Value.children] at hcs
    subst hcs
    have hmem' : kop ∈ comparisonKeyOpcodes := hmem
    fin_cases hmem' <;> rfl
  refine ⟨?_, ?_, ?_⟩
  · intro v c0 c1 hmem hcs
    refine ⟨key_eq v c0 c1 hmem hcs, ?_⟩
    rw [key_eq v c0 c1 hmem hcs]
    rfl
  · intro v w c0 c1 d0 d1 hmem hvc hwc hkind htyp h0 h1
    have hop : v.opcode = w.opcode := congrArg Kind.opcode hkind
    have hwmem : w.opcode ∈ comparisonKeyOpcodes := hop ▸ hmem
    rw [key_eq v c0 c1 hmem hvc, key_eq w d0 d1 hwmem hwc, hkind, htyp, h0, h1]
  · intro v hv
    obtain ⟨i, k, t, o, w, cs, p⟩ := v
    obtain ⟨kop, ktr⟩ := k
    rcases hv with hv | hv
    · obtain rfl : kop = .LessEqual := hv
      rfl
    · obtain rfl : kop = .GreaterEqual := hv
      rfl

/-- Witness for C4 (amended): the sample `Equal(b@1, b@2)` node and its twin
at another index produce the same valid two-operand key. -/
theorem C4_comparison_key_bucketing_witness :
    sampleEqual.opcode ∈ comparisonKeyOpcodes ∧
    sampleEqual.children = [sampleX, sampleY] ∧
    sampleEqualTwin.children = [sampleX, sampleY] ∧
    sampleEqual.key =
      some (ValueKey.binary sampleEqual.kind sampleEqual.typ sampleX.index sampleY.index) ∧
    sampleEqual.key = sampleEqualTwin.key :=
  ⟨by decide, rfl, rfl,
   (C4_comparison_key_bucketing.1 sampleEqual sampleX sampleY (by decide) rfl).1,
   C4_comparison_key_bucketing.2.1 sampleEqual sampleEqualTwin sampleX sampleY
     sampleX sampleY (by decide) rfl rfl rfl rfl rfl rfl⟩

/-- C5: the `typeFor` rule table — determinism (it is a pure function), Add
inherits the first operand's type, all eleven comparisons yield Int32,
BitwiseCast swaps same-width domains, Select takes its second operand's type,
and the terminator-like opcodes yield Void. -/
theorem C5_typeFor_table :
    (∀ (k : Kind) (a b : Option Value), Value.typeFor k a b = Value.typeFor k a b) ∧
    (∀ (k : Kind) (x : Value) (b : Option Value), k.opcode = .Add →
        Value.typeFor k (some x) b = some x.typ) ∧
    (∀ (k : Kind) (a b : Option Value), k.opcode ∈ comparisonOpcodes →
        Value.typeFor k a b = some .Int32) ∧
    (∀ (k : Kind) (x : Value) (b : Option Value), k.opcode = .BitwiseCast →
        (x.typ = .Int64 → Value.typeFor k (some x) b = some .Double) ∧
        (x.typ = .Double → Value.typeFor k (some x) b = some .Int64) ∧
        (x.typ = .Int32 → Value.typeFor k (some x) b = some .Float) ∧
        (x.typ = .Float → Value.typeFor k (some x) b = some .Int32)) ∧
    (∀ (k : Kind) (a : Option Value) (y : Value), k.opcode = .Select →
        Value.typeFor k a (some y) = some y.typ) ∧
    (∀ (k : Kind) (a b : Option Value), k.opcode ∈ voidTypeOpcodes →
        Value.typeFor k a b = some .Void) := by
  refine ⟨?_, ?_, ?_, ?_, ?_, ?_⟩
  · intro k a b
    rfl
  · intro k x b hop
    obtain ⟨kop, ktr⟩ := k
    obtain rfl : kop = .Add := hop
    rfl
  · intro k a b hmem
    obtain ⟨kop, ktr⟩ := k
    have hmem' : kop ∈ comparisonOpcodes := hmem
    fin_cases hmem' <;> rfl
  · intro k x b hop
    obtain ⟨kop, ktr⟩ := k
    obtain rfl : kop = .BitwiseCast := hop
    obtain ⟨xi, xk, xt, xo, xw, xcs, xp⟩ := x
    refine ⟨?_, ?_, ?_, ?_⟩ <;> intro hxt
    · obtain rfl : xt = .Int64 := hxt
      rfl
    · obtain rfl : xt = .Double := hxt
      rfl
    · obtain rfl : xt = .Int32 := hxt
      rfl
    · obtain rfl : xt = .Float := hxt
      rfl
  · intro k a y hop
    obtain ⟨kop, ktr⟩ := k
    obtain rfl : kop = .Select := hop
    rfl
  · intro k a b hmem
    obtain ⟨kop, ktr⟩ := k
    have hmem' : kop ∈ voidTypeOpcodes := hmem
    fin_cases hmem' <;> rfl

/-- Witness for C5: the comparison rule evaluated at `Equal` on the sample
constants. -/
theorem C5_typeFor_table_witness :
    (Kind.ofOpcode .Equal).opcode ∈ comparisonOpcodes ∧
    Value.typeFor (Kind.ofOpcode .Equal) (some sampleX) (some sampleY) =
      some Typ.Int32 :=
  ⟨by decide,
   C5_typeFor_table.2.2.1 (Kind.ofOpcode .Equal) (some sampleX) (some sampleY) (by decide)⟩

/-- C6 counterexample: the claim that nothing besides index and owner is
carried over is false — `replaceWith` passes the old `m_origin` into the
reconstructed node, so the sample node's origin 9 survives the replacement. -/
theorem C6_counterexample_origin :
    (sampleAdd.replaceWith (Kind.ofOpcode .Nop) .Void 2).origin = sampleAdd.origin ∧
    sampleAdd.origin = 9 :=
  ⟨rfl, rfl⟩

/-- C6 (amended): after `replaceWith(kind, type, owner[, child])` the node
has its old index, its old origin, the given owner, kind, type, and child
list, and the base (empty) payload — opcode, kind flags, type, children and
opcode-specific payload are not carried over, but origin is. -/
theorem C6_replaceWith_state :
    ∀ (v : Value) (k : Kind) (t : Typ) (o : Nat) (c : Value),
      v.replaceWith k t o = Value.mk v.index k t v.origin o [] .none ∧
      v.replaceWith1 k t o c = Value.mk v.index k t v.origin o [c] .none :=
  fun _ _ _ _ _ => ⟨rfl, rfl⟩

/-- C8: terminator replacement contract — `replaceWithJump`/`replaceWithOops`
take the fatal path exactly when the node is not the block's last node; when
it is last, the node becomes a Void `Jump` (resp. `Oops`) with its index
preserved, and the block's successors become exactly the one given target
(resp. empty). -/
theorem C8_terminator_replacement :
    ∀ (v : Value) (b : BasicBlock) (target : Nat),
      (b.last.map Value.index ≠ some v.index →
          v.replaceWithJump b target = Option.none ∧
          v.replaceWithOops b = Option.none) ∧
      (b.last.map Value.index = some v.index →
          (∃ v' b', v.replaceWithJump b target = some (v', b') ∧
              v'.opcode = .Jump ∧ v'.typ = .Void ∧ v'.index = v.index ∧
              b'.successors = [target]) ∧
          (∃ v' b', v.replaceWithOops b = some (v', b') ∧
              v'.opcode = .Oops ∧ v'.typ = .Void ∧ v'.index = v.index ∧
              b'.successors = [])) := by
  intro v b target
  constructor
  · intro hne
    constructor
    · unfold Value.replaceWithJump
      rw [if_neg hne]
    · unfold Value.replaceWithOops
      rw [if_neg hne]
  · intro heq
    constructor
    · exact ⟨v.replaceWith (Kind.ofOpcode .Jump) .Void v.owner,
        ⟨b.replaceValue v.index (v.replaceWith (Kind.ofOpcode .Jump) .Void v.owner),
         [target]⟩,
        by unfold Value.replaceWithJump; rw [if_pos heq], rfl, rfl, rfl, rfl⟩
    · exact ⟨v.replaceWith (Kind.ofOpcode .Oops) .Void v.owner,
        ⟨b.replaceValue v.index (v.replaceWith (Kind.ofOpcode .Oops) .Void v.owner),
         []⟩,
        by unfold Value.replaceWithOops; rw [if_pos heq], rfl, rfl, rfl, rfl⟩

/-- Witness for C8: the sample block's last node (`sampleReturn`) is replaced
by a Jump to block 4 and by an Oops. -/
theorem C8_terminator_replacement_witness :
    sampleBlock.last.map Value.index = some sampleReturn.index ∧
    ((∃ v' b', sampleReturn.replaceWithJump sampleBlock 4 = some (v', b') ∧
        v'.opcode = .Jump ∧ v'.typ = .Void ∧ v'.index = sampleReturn.index ∧
        b'.successors = [4]) ∧
     (∃ v' b', sampleReturn.replaceWithOops sampleBlock = some (v', b') ∧
        v'.opcode = .Oops ∧ v'.typ = .Void ∧ v'.index = sampleReturn.index ∧
        b'.successors = [])) :=
  ⟨rfl, (C8_terminator_replacement sampleReturn sampleBlock 4).2 rfl⟩

/-- C9: identity-chain folding convergence — `foldIdentity` on the head of an
acyclic chain of `n` Identity nodes returns the chain's non-Identity end in
exactly `n` steps; `performSubstitution` replaces exactly the direct children
that are Identity nodes by their folded targets, returns true iff at least
one child was replaced, and afterwards no direct child is an Identity node. -/
theorem C9_identity_folding :
    (∀ (v d : Value) (n : Nat), IdentityChain v n d →
        v.foldIdentity = some d ∧ v.foldIdentitySteps = some (d, n)) ∧
    (∀ (v v' : Value) (changed : Bool), v.performSubstitution = some (v', changed) →
        (changed = true ↔ ∃ c ∈ v.children, c.opcode = .Identity) ∧
        (∀ c ∈ v'.children, c.opcode ≠ .Identity) ∧
        v'.children.length = v.children.length ∧
        (∀ (i : Nat) (c : Value), v.children[i]? = some c →
          (c.opcode = .Identity → v'.children[i]? = c.foldIdentity) ∧
          (c.opcode ≠ .Identity → v'.children[i]? = some c))) := by
  constructor
  · intro v d n h
    induction h with
    | done u hu =>
        obtain ⟨i, k, t, o, w, cs, p⟩ := u
        have hu' : k.opcode ≠ .Identity := hu
        cases cs with
        | nil =>
            constructor
            · simp only [Value.foldIdentity]
              rw [if_neg hu']
            · simp only [Value.foldIdentitySteps]
              rw [if_neg hu']
        | cons c0 cs' =>
            constructor
            · simp only [Value.foldIdentity]
              rw [if_neg hu']
            · simp only [Value.foldIdentitySteps]
              rw [if_neg hu']
    | step u c d n hu hc hchain ih =>
        obtain ⟨i, k, t, o, w, cs, p⟩ := u
        have hu' : k.opcode = .Identity := hu
        simp only [Value.children] at hc
        cases cs with
        | nil => exact Option.noConfusion hc
        | cons c0 cs' =>
            simp only [List.head?_cons, Option.some.injEq] at hc
            subst hc
            constructor
            · simp only [Value.foldIdentity]
              rw [if_pos hu']
              exact ih.1
            · simp only [Value.foldIdentitySteps]
              rw [if_pos hu', ih.2]
              rfl
  · intro v v' changed h
    obtain ⟨i, k, t, o, w, cs, p⟩ := v
    simp only [Value.performSubstitution] at h
    rw [Option.map_eq_some'] at h
    obtain ⟨⟨cs', b⟩, hsub, hmk⟩ := h
    cases hmk
    exact substituteChildren_spec cs cs' b hsub

/-- Witness for C9: the two-link sample chain
`b@13 = Identity(b@12 = Identity(b@1))` folds to `b@1` in two steps, and
`performSubstitution` on `Add(b@13, b@2)` rewrites the Identity child. -/
theorem C9_identity_folding_witness :
    (sampleIdentityA.foldIdentity = some sampleX ∧
     sampleIdentityA.foldIdentitySteps = some (sampleX, 2)) ∧
    sampleAddOfIdentity.performSubstitution =
      some (Value.mk 15 (Kind.ofOpcode .Add) .Int32 0 0 [sampleX, sampleY] .none, true) ∧
    (true = true ↔ ∃ c ∈ sampleAddOfIdentity.children, c.opcode = .Identity) :=
  ⟨C9_identity_folding.1 sampleIdentityA sampleX 2
     (IdentityChain.step sampleIdentityA sampleIdentityB sampleX 1 rfl rfl
       (IdentityChain.step sampleIdentityB sampleX sampleX 0 rfl rfl
         (IdentityChain.done sampleX (by decide)))),
   rfl,
   (C9_identity_folding.2 sampleAddOfIdentity
      (Value.mk 15 (Kind.ofOpcode .Add) .Int32 0 0 [sampleX, sampleY] .none)
      true rfl).1⟩

end B3
